import Mathlib

/-!
# Verification of the bibliography normalization scripts

A shallow embedding of the field-normalization core of the repository
(`src/bibtex_parser.py` and `src/parse_bib.py`): journal-name resolution
against the CASSI abbreviation table, identifier (DOI) prefix stripping,
page-range punctuation, the author-list check, the missing-DOI check of
the driver loop, and the field pruner.

Strings are modelled as `List Char` (Python `str`).  Python dictionaries
(the CASSI table and each record) are modelled as association lists with
distinct keys, which is the state of any constructed Python `dict`;
`List.lookup` plays the role of `d[k]` / `k in d`.  `print`ed warnings are
modelled as a structured `Warning` value per `print` site, carrying the
same data that is interpolated into the printed message.  Python string
methods `upper`/`lower` are modelled on their ASCII behaviour, which covers
every character class the scripts distinguish.
-/

/-- Character list of a string literal (Python `str` values). -/
def strL (s : String) : List Char := s.data

/-- Python `str.lower` on one ASCII character: `A`–`Z` maps to `a`–`z`,
everything else is unchanged. -/
def asciiLower (c : Char) : Char :=
  if 65 ≤ c.toNat ∧ c.toNat ≤ 90 then Char.ofNat (c.toNat + 32) else c

/-- Python `str.upper` on one ASCII character: `a`–`z` maps to `A`–`Z`,
everything else is unchanged. -/
def asciiUpper (c : Char) : Char :=
  if 97 ≤ c.toNat ∧ c.toNat ≤ 122 then Char.ofNat (c.toNat - 32) else c

/-- Python `str.lower`. -/
def lowerStr (s : List Char) : List Char := s.map asciiLower

/-- Python `str.upper`. -/
def upperStr (s : List Char) : List Char := s.map asciiUpper

/-- Fuel-indexed recursion for Python `s.replace(pat, rep)`: on a match,
emit `rep` and skip past the matched pattern; each step consumes at least
one character, so the fuel bound `s.length` of `replaceAll` is never
exhausted and the fuel-out branch is dead code. -/
def replaceAllFuel (pat rep : List Char) : Nat → List Char → List Char
  | _, [] => []
  | 0, s => s
  | fuel + 1, c :: rest =>
    if pat ≠ [] ∧ pat <+: (c :: rest) then
      rep ++ replaceAllFuel pat rep fuel ((c :: rest).drop pat.length)
    else
      c :: replaceAllFuel pat rep fuel rest

/-- Python `s.replace(pat, rep)` for a non-empty pattern `pat`:
replace every non-overlapping occurrence, scanning left to right. -/
def replaceAll (s pat rep : List Char) : List Char :=
  replaceAllFuel pat rep s.length s

/-- A word character for the regex `\W` used by the journal fallback
(`re.split` with pattern `(\W+)`): alphanumeric or underscore. -/
def isWordChar (c : Char) : Bool := c.isAlphanum || c = '_'

/-- Extend the chunk decomposition of the tail by one character: start a
new run when the word-character class changes, otherwise grow the first
run. -/
def chunkStep (c : Char) (acc : List (List Char)) : List (List Char) :=
  match acc with
  | [] => [[c]]
  | run :: rest =>
    match run with
    | [] => [c] :: rest
    | d :: ds =>
      if isWordChar c = isWordChar d then (c :: d :: ds) :: rest
      else [c] :: (d :: ds) :: rest

/-- Maximal runs of characters of equal word-character class
(the alternating word / non-word chunks of a string). -/
def chunks (s : List Char) : List (List Char) :=
  s.foldr chunkStep []

/-- Python `re.split(r'(\W+)', s)`: the word chunks of `s` with the
non-word separators kept in place, plus an empty leading (trailing) part
when `s` starts (ends) with a non-word character; `[""]` for empty `s`. -/
def pySplitW (s : List Char) : List (List Char) :=
  if s = [] then [[]]
  else
    (match s.head? with
      | some c => if isWordChar c then [] else [[]]
      | none => [])
    ++ chunks s ++
    (match s.getLast? with
      | some c => if isWordChar c then [] else [[]]
      | none => [])

/-- The apostrophe character (used by Python `str()` of a key view). -/
def quoteC : Char := Char.ofNat 39

/-- The element list inside Python `str(dict.keys())`: each key wrapped in
apostrophes, separated by a comma and a space.  Models keys whose `repr`
needs no escaping and no double quoting, which holds for every table key
and field name the scripts handle. -/
def renderItems : List (List Char) → List Char
  | [] => []
  | [k] => quoteC :: (k ++ [quoteC])
  | k :: ks => quoteC :: (k ++ [quoteC, ',', ' ']) ++ renderItems ks

/-- Python `str(d.keys())` for a `dict` with the given key list:
`dict_keys([...])` around the rendered elements. -/
def renderKeys (ks : List (List Char)) : List Char :=
  strL "dict_keys([" ++ renderItems ks ++ strL "])"

/-- One warning per `print` site of the scripts, carrying the data that the
printed message interpolates. -/
inductive Warning where
  /-- Printed as: WARNING: JOURNAL abbreviation for (record) in entry (id)
  is unknown. -/
  | journalUnknown (record id : List Char)
  /-- Printed as: WARNING: DOI does not start with 10. for entry (id). -/
  | doiMalformed (id : List Char)
  /-- Printed as: WARNING: Author list for (id) may be incomplete. -/
  | authorIncomplete (id : List Char)
  /-- Printed as: WARNING: No DOI field in entry (id). -/
  | missingDoi (id : List Char)
deriving DecidableEq

/-- The CASSI table: the constructed Python `dict` mapping full publication
names (`PubTitle`) to abbreviations (`Abbreviation`), as an association
list with distinct keys. -/
abbrev CassiDict : Type := List (List Char × List Char)

/-- The token-substitution step of the journal fallback:
`''.join(cassi_dict[p.upper()] if p.upper() in cassi_dict else p
for p in re.split(r'(\W+)', record))`. -/
def tokenSub (cassi : CassiDict) (record : List Char) : List Char :=
  ((pySplitW record).map (fun p =>
    match List.lookup (upperStr p) cassi with
    | some a => a
    | none => p)).flatten

/-- `fix_journal` (same logic in both scripts): returns the field value the
entry holds afterwards and the warnings printed.  Branches, in source
order: value already an abbreviation; value a table key; the uppercase
fallback with its commit test `record.upper() in str(cassi_dict.keys()).upper()`;
the unknown-journal warning; silently doing nothing when the substituted
token string is itself a key. -/
def fix_journal (cassi : CassiDict) (id record : List Char) :
    List Char × List Warning :=
  if record ∈ cassi.map Prod.snd then (record, [])
  else if (List.lookup record cassi).isSome then
    ((List.lookup record cassi).getD record, [])
  else
    let x := tokenSub cassi record
    if upperStr record <:+: upperStr (renderKeys (cassi.map Prod.fst)) then
      (x, [])
    else if (List.lookup x cassi).isSome = false then
      (record, [Warning.journalUnknown record id])
    else
      (record, [])

/-- `fix_doi` (same logic in both scripts): strip a `dx` resolver prefix,
else a plain resolver prefix, else warn when the value does not start with
`10`; returns the resulting field value and the warnings printed. -/
def fix_doi (id record : List Char) : List Char × List Warning :=
  if strL "https://dx." <+: record then
    (replaceAll record (strL "https://dx.doi.org/") [], [])
  else if strL "https://doi." <+: record then
    (replaceAll record (strL "https://doi.org/") [], [])
  else if ¬ (strL "10" <+: record) then
    (record, [Warning.doiMalformed id])
  else
    (record, [])

/-- `fix_pages`: `record.replace('-', '--')` when a hyphen but no double
hyphen occurs, else `record.replace(' ', '--')` when a space but no double
hyphen occurs, else unchanged. -/
def fix_pages (record : List Char) : List Char :=
  if '-' ∈ record ∧ ¬ (strL "--" <:+: record) then
    replaceAll record ['-'] (strL "--")
  else if ' ' ∈ record ∧ ¬ (strL "--" <:+: record) then
    replaceAll record [' '] (strL "--")
  else
    record

/-- `warn_author`: warn when `"and others" in record.lower()`. -/
def warn_author (id record : List Char) : List Warning :=
  if strL "and others" <:+: lowerStr record then [Warning.authorIncomplete id]
  else []

/-- A record: the entry `dict` of the parsed file as an association list
with distinct keys, including its `ID` (and `ENTRYTYPE`) items. -/
abbrev Entry : Type := List (List Char × List Char)

/-- `entry['ID']` (defaulting to the empty string, which never occurs for
parsed records). -/
def entryID (e : Entry) : List Char := (List.lookup (strL "ID") e).getD []

/-- One step of the field loop of `fix_bib` in `src/bibtex_parser.py`:
dispatch on `type.lower()` to the matching normalizer; `title` is handled
by the external `titlecase` collaborator `tc`.  Returns the value the
field holds afterwards and the warnings printed. -/
def fixField (tc : List Char → List Char) (cassi : CassiDict)
    (id fieldName v : List Char) : List Char × List Warning :=
  if lowerStr fieldName = strL "journal" then fix_journal cassi id v
  else if lowerStr fieldName = strL "title" then (tc v, [])
  else if lowerStr fieldName = strL "doi" then fix_doi id v
  else if lowerStr fieldName = strL "pages" then (fix_pages v, [])
  else if lowerStr fieldName = strL "author" then (v, warn_author id v)
  else (v, [])

/-- The per-record body of `fix_bib` in `src/bibtex_parser.py`: run every
field through its normalizer (updates touch only the field's own value),
then emit the missing-DOI warning when
`"doi" not in str(entry.keys()).lower()`.  Returns the updated record and
the warnings printed, in print order. -/
def fix_bib_entry (tc : List Char → List Char) (cassi : CassiDict)
    (e : Entry) : Entry × List Warning :=
  let id := entryID e
  let fields : Entry := e.map (fun kv => (kv.1, (fixField tc cassi id kv.1 kv.2).1))
  let ws := (e.map (fun kv => (fixField tc cassi id kv.1 kv.2).2)).flatten
  if strL "doi" <:+: lowerStr (renderKeys (fields.map Prod.fst)) then
    (fields, ws)
  else
    (fields, ws ++ [Warning.missingDoi id])

/-- `entry.pop(k)` on a record `dict`: drop the binding when the key is
present, raise `KeyError` otherwise. -/
def dictPop (e : Entry) (k : List Char) : Except Unit Entry :=
  match e with
  | [] => .error ()
  | kv :: rest =>
    if kv.1 = k then .ok rest
    else match dictPop rest k with
      | .ok rest2 => .ok (kv :: rest2)
      | .error u => .error u

/-- The inner loop of `remove_extraneous` in `src/bibtex_parser.py` over one
record: for each configured name `m`, when `m.lower()` is a key of the
record, `entry.pop(m)`. -/
def pruneEntry (marked : List (List Char)) (e : Entry) : Except Unit Entry :=
  match marked with
  | [] => .ok e
  | m :: ms =>
    if lowerStr m ∈ e.map Prod.fst then
      match dictPop e m with
      | .ok e2 => pruneEntry ms e2
      | .error u => .error u
    else pruneEntry ms e

/-- `remove_extraneous` in `src/bibtex_parser.py`: prune every record of the
store in order; a raised `KeyError` aborts the whole pass. -/
def remove_extraneous (marked : List (List Char)) :
    List Entry → Except Unit (List Entry)
  | [] => .ok []
  | e :: es =>
    match pruneEntry marked e with
    | .ok e2 =>
      match remove_extraneous marked es with
      | .ok es2 => .ok (e2 :: es2)
      | .error u => .error u
    | .error u => .error u

/-- The configured removal list `marked_for_removal` of the scripts. -/
def marked_for_removal : List (List Char) :=
  [strL "abstract", strL "eprint", strL "file", strL "pmid", strL "pdf",
    strL "mendeley-groups"]

/-- The example table of the specification: the JCTC full name mapped to
its CASSI abbreviation. -/
def jctcTable : CassiDict :=
  [(strL "Journal of Chemical Theory and Computation", strL "J. Chem. Theory Comput.")]

lemma sub_of_pre {l₁ l₂ : List Char} (h : l₁ <+: l₂) : l₁ <:+: l₂ := by
  obtain ⟨t, rfl⟩ := h
  exact ⟨[], t, rfl⟩

lemma sub_cons {l₁ l₂ : List Char} (a : Char) (h : l₁ <:+: l₂) : l₁ <:+: a :: l₂ := by
  obtain ⟨u, v, rfl⟩ := h
  exact ⟨a :: u, v, rfl⟩

lemma sub_append_left {l x : List Char} (y : List Char) (h : l <:+: x) : l <:+: x ++ y := by
  obtain ⟨u, v, rfl⟩ := h
  exact ⟨u, v ++ y, by simp⟩

lemma sub_append_right {l y : List Char} (x : List Char) (h : l <:+: y) : l <:+: x ++ y := by
  obtain ⟨u, v, rfl⟩ := h
  exact ⟨x ++ u, v, by simp⟩

lemma sub_len {l₁ l₂ : List Char} (h : l₁ <:+: l₂) : l₁.length ≤ l₂.length := by
  obtain ⟨u, v, rfl⟩ := h
  simp only [List.length_append]
  omega

lemma replaceAllFuel_no_occ (pat rep : List Char) :
    ∀ (fuel : Nat) (s : List Char), ¬ (pat <:+: s) → replaceAllFuel pat rep fuel s = s := by
  intro fuel
  induction fuel with
  | zero => intro s h; cases s <;> rfl
  | succ n ih =>
    intro s h
    match s with
    | [] => rfl
    | c :: rest =>
      have hcond : ¬ (pat ≠ [] ∧ pat <+: (c :: rest)) := by
        rintro ⟨-, hp⟩
        exact h (sub_of_pre hp)
      rw [replaceAllFuel, if_neg hcond, ih rest (fun hr => h (sub_cons c hr))]

lemma replaceAll_no_occ (s pat rep : List Char) (h : ¬ (pat <:+: s)) :
    replaceAll s pat rep = s :=
  replaceAllFuel_no_occ pat rep s.length s h

lemma rep_sub_replace_single (c : Char) (rep : List Char) :
    ∀ (fuel : Nat) (s : List Char), s.length ≤ fuel → c ∈ s →
      rep <:+: replaceAllFuel [c] rep fuel s := by
  intro fuel
  induction fuel with
  | zero =>
    intro s hlen hmem
    have : s = [] := List.eq_nil_of_length_eq_zero (by omega)
    subst this
    simp at hmem
  | succ n ih =>
    intro s hlen hmem
    match s with
    | [] => simp at hmem
    | a :: rest =>
      by_cases hac : c = a
      · subst hac
        have hcond : ([c] ≠ [] ∧ [c] <+: (c :: rest)) := by
          exact ⟨by simp, ⟨rest, rfl⟩⟩
        rw [replaceAllFuel, if_pos hcond]
        exact sub_of_pre ⟨_, rfl⟩
      · have hcond : ¬ ([c] ≠ [] ∧ [c] <+: (a :: rest)) := by
          rintro ⟨-, hp⟩
          rcases hp with ⟨t, ht⟩
          simp at ht
          exact hac ht.1
        rw [replaceAllFuel, if_neg hcond]
        have hmem2 : c ∈ rest := by
          rcases List.mem_cons.mp hmem with h | h
          · exact absurd h hac
          · exact h
        exact sub_cons a (ih rest (by simp at hlen; omega) hmem2)

lemma dd_sub_replace_hyphen (s : List Char) (h : '-' ∈ s) :
    strL "--" <:+: replaceAll s ['-'] (strL "--") :=
  rep_sub_replace_single '-' (strL "--") s.length s (Nat.le_refl _) h

lemma dd_sub_replace_space (s : List Char) (h : ' ' ∈ s) :
    strL "--" <:+: replaceAll s [' '] (strL "--") :=
  rep_sub_replace_single ' ' (strL "--") s.length s (Nat.le_refl _) h

lemma fix_pages_of_dd (s : List Char) (h : strL "--" <:+: s) : fix_pages s = s := by
  rw [fix_pages, if_neg (by rintro ⟨-, hn⟩; exact hn h),
    if_neg (by rintro ⟨-, hn⟩; exact hn h)]

/-- C6: the page-range normalizer maps `100-110` and `100 110` to
`100--110`, leaves `100--110` unchanged, and is idempotent on every
input string. -/
theorem fix_pages_examples_and_idempotent :
    fix_pages (strL "100-110") = strL "100--110" ∧
    fix_pages (strL "100 110") = strL "100--110" ∧
    fix_pages (strL "100--110") = strL "100--110" ∧
    ∀ s : List Char, fix_pages (fix_pages s) = fix_pages s := by
  refine ⟨by decide, by decide, by decide, ?_⟩
  intro s
  by_cases h1 : '-' ∈ s ∧ ¬ (strL "--" <:+: s)
  · have hs : fix_pages s = replaceAll s ['-'] (strL "--") := by
      rw [fix_pages, if_pos h1]
    rw [hs]
    exact fix_pages_of_dd _ (dd_sub_replace_hyphen s h1.1)
  · by_cases h2 : ' ' ∈ s ∧ ¬ (strL "--" <:+: s)
    · have hs : fix_pages s = replaceAll s [' '] (strL "--") := by
        rw [fix_pages, if_neg h1, if_pos h2]
      rw [hs]
      exact fix_pages_of_dd _ (dd_sub_replace_space s h2.1)
    · have hs : fix_pages s = s := by
        rw [fix_pages, if_neg h1, if_neg h2]
      rw [hs, hs]

/-- C5: the DOI normalizer strips the `https://doi.org/` resolver prefix
with no warning, leaves a bare `10.`-prefixed identifier unchanged with no
warning, and warns on `xyz123` while leaving it unchanged. -/
theorem fix_doi_examples : ∀ id : List Char,
    fix_doi id (strL "https://doi.org/10.1021/acs.jctc.1c00001") =
      (strL "10.1021/acs.jctc.1c00001", []) ∧
    fix_doi id (strL "10.1021/xyz") = (strL "10.1021/xyz", []) ∧
    fix_doi id (strL "xyz123") = (strL "xyz123", [Warning.doiMalformed id]) :=
  fun _ => ⟨rfl, rfl, rfl⟩

/-- C10: a DOI value that starts with `https://dx.` but nowhere contains the
full prefix `https://dx.doi.org/` enters the first branch, whose
`str.replace` finds no occurrence, so the value is unchanged and no warning
is printed. -/
theorem fix_doi_dx_unmatched (id record : List Char)
    (h1 : strL "https://dx." <+: record)
    (h2 : ¬ (strL "https://dx.doi.org/" <:+: record)) :
    fix_doi id record = (record, []) := by
  rw [fix_doi, if_pos h1, replaceAll_no_occ record (strL "https://dx.doi.org/") [] h2]

theorem fix_doi_dx_unmatched_witness :
    (strL "https://dx." <+: strL "https://dx.example.org/10.1/x") ∧
    ¬ (strL "https://dx.doi.org/" <:+: strL "https://dx.example.org/10.1/x") ∧
    fix_doi (strL "rec1") (strL "https://dx.example.org/10.1/x") =
      (strL "https://dx.example.org/10.1/x", []) :=
  ⟨by decide, by decide,
    fix_doi_dx_unmatched (strL "rec1") (strL "https://dx.example.org/10.1/x")
      (by decide) (by decide)⟩

/-- C7: a journal value that equals some abbreviation (a value) of the
table is left unchanged with no warning. -/
theorem fix_journal_abbrev_noop (cassi : CassiDict) (id record : List Char)
    (h : record ∈ cassi.map Prod.snd) :
    fix_journal cassi id record = (record, []) := by
  rw [fix_journal, if_pos h]

theorem fix_journal_abbrev_noop_witness :
    (strL "J. Chem. Theory Comput." ∈ jctcTable.map Prod.snd) ∧
    fix_journal jctcTable (strL "rec1") (strL "J. Chem. Theory Comput.") =
      (strL "J. Chem. Theory Comput.", []) :=
  ⟨by decide,
    fix_journal_abbrev_noop jctcTable (strL "rec1") (strL "J. Chem. Theory Comput.")
      (by decide)⟩

/-- C8: a journal value that is a key of the table and not one of its
abbreviations is replaced by the abbreviation the table associates to it,
with no warning. -/
theorem fix_journal_key_replaced (cassi : CassiDict) (id record a : List Char)
    (h1 : record ∉ cassi.map Prod.snd)
    (h2 : List.lookup record cassi = some a) :
    fix_journal cassi id record = (a, []) := by
  rw [fix_journal, if_neg h1]
  simp [h2]

theorem fix_journal_key_replaced_witness :
    (strL "Journal of Chemical Theory and Computation" ∉ jctcTable.map Prod.snd) ∧
    List.lookup (strL "Journal of Chemical Theory and Computation") jctcTable =
      some (strL "J. Chem. Theory Comput.") ∧
    fix_journal jctcTable (strL "rec1") (strL "Journal of Chemical Theory and Computation") =
      (strL "J. Chem. Theory Comput.", []) :=
  ⟨by decide, by decide,
    fix_journal_key_replaced jctcTable (strL "rec1")
      (strL "Journal of Chemical Theory and Computation")
      (strL "J. Chem. Theory Comput.") (by decide) (by decide)⟩

/-- C1: on the specification's one-entry table, the all-uppercase JCTC name
takes the uppercase fallback's commit branch, but no single token's
uppercase form is a table key, so the committed token-substituted string is
the unchanged all-uppercase input, not the abbreviation the claim expects. -/
theorem fix_journal_jctc_uppercase_eval :
    fix_journal jctcTable (strL "rec1")
        (strL "JOURNAL OF CHEMICAL THEORY AND COMPUTATION") =
      (strL "JOURNAL OF CHEMICAL THEORY AND COMPUTATION", []) ∧
    strL "JOURNAL OF CHEMICAL THEORY AND COMPUTATION" ≠
      strL "J. Chem. Theory Comput." := by
  exact ⟨by decide, by decide⟩

/-- C4: a journal value that is neither an abbreviation nor a key, whose
uppercase form does not occur in the uppercased rendering of the table's
key view, and whose token-substituted form is not a key either, is left
unchanged, and exactly the one unknown-journal warning carrying that value
and the record identifier is printed. -/
theorem fix_journal_unknown_warns (cassi : CassiDict) (id record : List Char)
    (h1 : record ∉ cassi.map Prod.snd)
    (h2 : List.lookup record cassi = none)
    (h3 : ¬ (upperStr record <:+: upperStr (renderKeys (cassi.map Prod.fst))))
    (h4 : List.lookup (tokenSub cassi record) cassi = none) :
    fix_journal cassi id record = (record, [Warning.journalUnknown record id]) := by
  rw [fix_journal, if_neg h1]
  simp only [h2, Option.isSome_none, if_neg h3, h4, if_false]
  rfl

theorem fix_journal_unknown_warns_witness :
    (strL "Unknown Obscure Serial" ∉ jctcTable.map Prod.snd) ∧
    List.lookup (strL "Unknown Obscure Serial") jctcTable = none ∧
    ¬ (upperStr (strL "Unknown Obscure Serial") <:+:
        upperStr (renderKeys (jctcTable.map Prod.fst))) ∧
    fix_journal jctcTable (strL "rec9") (strL "Unknown Obscure Serial") =
      (strL "Unknown Obscure Serial",
        [Warning.journalUnknown (strL "Unknown Obscure Serial") (strL "rec9")]) :=
  ⟨by decide, by decide, by decide,
    fix_journal_unknown_warns jctcTable (strL "rec9") (strL "Unknown Obscure Serial")
      (by decide) (by decide) (by decide) (by decide)⟩

lemma sub_split {w x y : List Char} (h : w <:+: x ++ y) :
    w <:+: x ∨ w <:+: y ∨
    ∃ w₁ w₂, w = w₁ ++ w₂ ∧ w₁ ≠ [] ∧ w₂ ≠ [] ∧ w₁ <:+ x ∧ w₂ <+: y := by
  obtain ⟨s, t, hst⟩ := h
  by_cases hc1 : s.length + w.length ≤ x.length
  · left
    have hx : x = s ++ (w ++ t.take (x.length - s.length - w.length)) := by
      conv_lhs => rw [← List.take_left x y, ← hst]
      rw [List.append_assoc, List.take_append_eq_append_take,
        List.take_of_length_le (by omega), List.take_append_eq_append_take,
        List.take_of_length_le (by omega)]
    refine ⟨s, t.take (x.length - s.length - w.length), ?_⟩
    rw [List.append_assoc]
    exact hx.symm
  · by_cases hc2 : x.length ≤ s.length
    · right; left
      have hy : y = s.drop x.length ++ (w ++ t) := by
        conv_lhs => rw [← List.drop_left x y, ← hst]
        rw [List.append_assoc, List.drop_append_eq_append_drop]
        have h0 : x.length - s.length = 0 := by omega
        rw [h0, List.drop_zero]
      refine ⟨s.drop x.length, t, ?_⟩
      rw [List.append_assoc]
      exact hy.symm
    · right; right
      refine ⟨x.drop s.length, y.take (s.length + w.length - x.length), ?_, ?_, ?_, ?_, ?_⟩
      · have hwt : w ++ t = x.drop s.length ++ y := by
          conv_lhs => rw [← List.drop_left s (w ++ t), ← List.append_assoc, hst]
          rw [List.drop_append_eq_append_drop]
          have h0 : s.length - x.length = 0 := by omega
          rw [h0, List.drop_zero]
        have hw : w = (w ++ t).take w.length := by rw [List.take_left]
        rw [hwt, List.take_append_eq_append_take,
          List.take_of_length_le (by simp; omega)] at hw
        have hlen : w.length - (x.drop s.length).length = s.length + w.length - x.length := by
          simp
          omega
        rw [hlen] at hw
        exact hw
      · intro hnil
        have h2 : (x.drop s.length).length = x.length - s.length := by simp
        rw [hnil] at h2
        simp at h2
        omega
      · intro hnil
        have h2 : (y.take (s.length + w.length - x.length)).length = 0 := by rw [hnil]; rfl
        rw [List.length_take] at h2
        have hy : s.length + w.length + t.length = x.length + y.length := by
          have := congrArg List.length hst
          simp at this
          omega
        omega
      · exact List.drop_suffix s.length x
      · exact List.take_prefix _ y

lemma doi_split_cases {w₁ w₂ : List Char} (h : w₁ ++ w₂ = strL "doi")
    (h1 : w₁ ≠ []) (h2 : w₂ ≠ []) :
    (w₁ = ['d'] ∧ w₂ = ['o', 'i']) ∨ (w₁ = ['d', 'o'] ∧ w₂ = ['i']) := by
  have hd : strL "doi" = ['d', 'o', 'i'] := rfl
  rw [hd] at h
  rcases w₁ with _ | ⟨a, _ | ⟨b, _ | ⟨c, tl⟩⟩⟩
  · exact absurd rfl h1
  · left
    simp only [List.cons_append, List.nil_append] at h
    injection h with ha h
    exact ⟨by rw [ha], h⟩
  · right
    simp only [List.cons_append, List.nil_append] at h
    injection h with ha h
    injection h with hb h
    exact ⟨by rw [ha, hb], h⟩
  · exfalso
    have hlen := congrArg List.length h
    simp at hlen
    exact h2 hlen.2

lemma pre_head {w y : List Char} (h : w <+: y) (hne : w ≠ []) : y.head? = w.head? := by
  obtain ⟨t, rfl⟩ := h
  cases w with
  | nil => exact absurd rfl hne
  | cons a l => rfl

lemma doi_sub_append_last {x y : List Char} (c : Char) (hc : x.getLast? = some c)
    (hd : c ≠ 'd') (ho : c ≠ 'o') :
    (strL "doi" <:+: x ++ y) ↔ (strL "doi" <:+: x ∨ strL "doi" <:+: y) := by
  constructor
  · intro h
    rcases sub_split h with h | h | ⟨w₁, w₂, hw, h1, h2, hsuf, -⟩
    · exact Or.inl h
    · exact Or.inr h
    · exfalso
      obtain ⟨u, rfl⟩ := hsuf
      have hlast : (u ++ w₁).getLast? = w₁.getLast? := List.getLast?_append_of_ne_nil u h1
      rw [hc] at hlast
      rcases doi_split_cases hw.symm h1 h2 with ⟨hw1, -⟩ | ⟨hw1, -⟩
      · rw [hw1] at hlast
        simp at hlast
        exact hd hlast
      · rw [hw1] at hlast
        simp at hlast
        exact ho hlast
  · rintro (h | h)
    · exact sub_append_left y h
    · exact sub_append_right x h

lemma doi_sub_append_head {x y : List Char} (c : Char) (hc : y.head? = some c)
    (ho : c ≠ 'o') (hi : c ≠ 'i') :
    (strL "doi" <:+: x ++ y) ↔ (strL "doi" <:+: x ∨ strL "doi" <:+: y) := by
  constructor
  · intro h
    rcases sub_split h with h | h | ⟨w₁, w₂, hw, h1, h2, -, hpre⟩
    · exact Or.inl h
    · exact Or.inr h
    · exfalso
      have hhead : y.head? = w₂.head? := pre_head hpre h2
      rw [hc] at hhead
      rcases doi_split_cases hw.symm h1 h2 with ⟨-, hw2⟩ | ⟨-, hw2⟩
      · rw [hw2] at hhead
        exact ho (by injection hhead)
      · rw [hw2] at hhead
        exact hi (by injection hhead)
  · rintro (h | h)
    · exact sub_append_left y h
    · exact sub_append_right x h

lemma doi_not_sub_short {l : List Char} (h : l.length < 3) : ¬ (strL "doi" <:+: l) := by
  intro hs
  have hlen := sub_len hs
  have h3 : (strL "doi").length = 3 := rfl
  omega

lemma asciiLower_quote : asciiLower quoteC = quoteC := by decide

lemma asciiLower_comma : asciiLower ',' = ',' := by decide

lemma asciiLower_space : asciiLower ' ' = ' ' := by decide

lemma doi_sub_renderItems : ∀ ks : List (List Char),
    (strL "doi" <:+: lowerStr (renderItems ks)) ↔
      ∃ k ∈ ks, strL "doi" <:+: lowerStr k := by
  intro ks
  induction ks with
  | nil =>
    simp only [renderItems, List.not_mem_nil, false_and, exists_false, iff_false]
    exact doi_not_sub_short (by simp [lowerStr])
  | cons k ks ih =>
    cases ks with
    | nil =>
      have hsplit : lowerStr (renderItems [k]) =
          [quoteC] ++ (lowerStr k ++ [quoteC]) := by
        simp [renderItems, lowerStr, asciiLower_quote]
      rw [hsplit,
        doi_sub_append_last quoteC (by rfl) (by decide) (by decide),
        doi_sub_append_head quoteC
          (by rfl : ([quoteC] : List Char).head? = some quoteC) (by decide) (by decide)]
      have hq : ¬ (strL "doi" <:+: [quoteC]) := doi_not_sub_short (by simp)
      simp [hq]
    | cons k2 rest =>
      have hsplit : lowerStr (renderItems (k :: k2 :: rest)) =
          ([quoteC] ++ (lowerStr k ++ [quoteC, ',', ' '])) ++
            lowerStr (renderItems (k2 :: rest)) := by
        simp [renderItems, lowerStr, asciiLower_quote, asciiLower_comma, asciiLower_space]
      have hlast : (([quoteC] ++ (lowerStr k ++ [quoteC, ',', ' ']))).getLast? =
          some ' ' := by
        rw [List.getLast?_append_of_ne_nil _ (by simp),
          List.getLast?_append_of_ne_nil _ (by simp)]
        rfl
      rw [hsplit,
        doi_sub_append_last ' ' hlast (by decide) (by decide),
        doi_sub_append_last quoteC
          (by rfl : ([quoteC] : List Char).getLast? = some quoteC) (by decide) (by decide),
        doi_sub_append_head quoteC
          (by rfl : ([quoteC, ',', ' '] : List Char).head? = some quoteC)
          (by decide) (by decide), ih]
      have hq : ¬ (strL "doi" <:+: [quoteC]) := doi_not_sub_short (by simp)
      have hqcs : ¬ (strL "doi" <:+: [quoteC, ',', ' ']) := by decide
      simp [hq, hqcs]

lemma doi_sub_renderKeys (ks : List (List Char)) :
    (strL "doi" <:+: lowerStr (renderKeys ks)) ↔
      ∃ k ∈ ks, strL "doi" <:+: lowerStr k := by
  have hsplit : lowerStr (renderKeys ks) =
      strL "dict_keys([" ++ (lowerStr (renderItems ks) ++ strL "])") := by
    have h1 : lowerStr (strL "dict_keys([") = strL "dict_keys([" := by decide
    have h2 : lowerStr (strL "])") = strL "])" := by decide
    simp [renderKeys, lowerStr] at h1 h2 ⊢
    simp [h1, h2]
  rw [hsplit,
    doi_sub_append_last '[' (by decide) (by decide) (by decide),
    doi_sub_append_head ']' (by decide) (by decide) (by decide)]
  have h1 : ¬ (strL "doi" <:+: strL "dict_keys([") := by decide
  have h2 : ¬ (strL "doi" <:+: strL "])") := by decide
  rw [doi_sub_renderItems ks]
  simp [h1, h2]

lemma fix_journal_warning_shape (cassi : CassiDict) (id r : List Char) :
    (fix_journal cassi id r).2 = [] ∨
    (fix_journal cassi id r).2 = [Warning.journalUnknown r id] := by
  rw [fix_journal]
  split_ifs with h1 h2 h3 <;> try simp
  split_ifs with h4 <;> simp

lemma fix_doi_warning_shape (id r : List Char) :
    (fix_doi id r).2 = [] ∨ (fix_doi id r).2 = [Warning.doiMalformed id] := by
  rw [fix_doi]
  split_ifs <;> simp

lemma warn_author_shape (id r : List Char) :
    warn_author id r = [] ∨ warn_author id r = [Warning.authorIncomplete id] := by
  rw [warn_author]
  split_ifs <;> simp

lemma fixField_no_missingDoi (tc : List Char → List Char) (cassi : CassiDict)
    (id j k v : List Char) :
    Warning.missingDoi j ∉ (fixField tc cassi id k v).2 := by
  rw [fixField]
  split_ifs
  · rcases fix_journal_warning_shape cassi id v with h | h <;> simp [h]
  · simp
  · rcases fix_doi_warning_shape id v with h | h <;> simp [h]
  · simp
  · rcases warn_author_shape id v with h | h <;> simp [h]
  · simp

/-- C3 (amended): the driver's per-record missing-DOI warning is emitted if
and only if no field name of the record contains `doi` as a
case-insensitive substring — the code tests
`"doi" not in str(entry.keys()).lower()`, a substring check over the
rendered key view, not an equality check against the name `doi`. -/
theorem fix_bib_entry_missing_doi_iff (tc : List Char → List Char)
    (cassi : CassiDict) (e : Entry) :
    Warning.missingDoi (entryID e) ∈ (fix_bib_entry tc cassi e).2 ↔
      ∀ kv ∈ e, ¬ (strL "doi" <:+: lowerStr kv.1) := by
  have hkeys : ((e.map fun kv =>
      (kv.1, (fixField tc cassi (entryID e) kv.1 kv.2).1)).map Prod.fst) =
      e.map Prod.fst := by
    rw [List.map_map]
    rfl
  have hws : Warning.missingDoi (entryID e) ∉
      ((e.map fun kv => (fixField tc cassi (entryID e) kv.1 kv.2).2).flatten) := by
    intro hmem
    rw [List.mem_flatten] at hmem
    obtain ⟨l, hl, hml⟩ := hmem
    rw [List.mem_map] at hl
    obtain ⟨kv, -, rfl⟩ := hl
    exact fixField_no_missingDoi tc cassi (entryID e) (entryID e) kv.1 kv.2 hml
  have hmemkeys : (∃ k ∈ e.map Prod.fst, strL "doi" <:+: lowerStr k) ↔
      (∃ kv ∈ e, strL "doi" <:+: lowerStr kv.1) := by
    constructor
    · rintro ⟨k, hk, hsub⟩
      rw [List.mem_map] at hk
      obtain ⟨kv, hkv, rfl⟩ := hk
      exact ⟨kv, hkv, hsub⟩
    · rintro ⟨kv, hkv, hsub⟩
      exact ⟨kv.1, List.mem_map_of_mem Prod.fst hkv, hsub⟩
  rw [fix_bib_entry]
  simp only [hkeys]
  by_cases hp : strL "doi" <:+: lowerStr (renderKeys (e.map Prod.fst))
  · rw [if_pos hp]
    simp only []
    constructor
    · intro hmem
      exact absurd hmem hws
    · intro hall
      exfalso
      obtain ⟨kv, hkv, hsub⟩ := hmemkeys.mp ((doi_sub_renderKeys (e.map Prod.fst)).mp hp)
      exact hall kv hkv hsub
  · rw [if_neg hp]
    simp only []
    constructor
    · intro _
      intro kv hkv hsub
      exact hp ((doi_sub_renderKeys (e.map Prod.fst)).mpr (hmemkeys.mpr ⟨kv, hkv, hsub⟩))
    · intro _
      rw [List.mem_append]
      right
      simp

/-- C3 (counterexample): a record whose field names are `ID`, `ENTRYTYPE`
and `doiurl` has no field named `doi` in any casing, yet the driver emits
no missing-DOI warning for it, because `doi` occurs inside `doiurl` in the
lowered rendering of the key view. -/
theorem fix_bib_entry_missing_doi_counterexample :
    lowerStr (strL "ID") ≠ strL "doi" ∧
    lowerStr (strL "ENTRYTYPE") ≠ strL "doi" ∧
    lowerStr (strL "doiurl") ≠ strL "doi" ∧
    entryID [(strL "ID", strL "rec1"), (strL "ENTRYTYPE", strL "article"),
      (strL "doiurl", strL "10.1/x")] = strL "rec1" ∧
    Warning.missingDoi (strL "rec1") ∉
      (fix_bib_entry (fun v => v) []
        [(strL "ID", strL "rec1"), (strL "ENTRYTYPE", strL "article"),
          (strL "doiurl", strL "10.1/x")]).2 := by
  decide

lemma char_ofNat_toNat_shift : ∀ n : Nat, 65 ≤ n → n ≤ 90 →
    (Char.ofNat (n + 32)).toNat = n + 32 := by
  intro n h1 h2
  interval_cases n <;> decide

lemma asciiLower_idem (c : Char) : asciiLower (asciiLower c) = asciiLower c := by
  by_cases h : 65 ≤ c.toNat ∧ c.toNat ≤ 90
  · have h1 : asciiLower c = Char.ofNat (c.toNat + 32) := by rw [asciiLower, if_pos h]
    have ht := char_ofNat_toNat_shift c.toNat h.1 h.2
    rw [h1, asciiLower, if_neg (by rw [ht]; omega)]
  · have h1 : asciiLower c = c := by rw [asciiLower, if_neg h]
    rw [h1, h1]

lemma lowerStr_idem (s : List Char) : lowerStr (lowerStr s) = lowerStr s := by
  simp only [lowerStr, List.map_map]
  exact List.map_congr_left fun c _ => asciiLower_idem c

lemma pruneEntry_skip_all : ∀ (marked : List (List Char)) (e : Entry),
    (∀ m ∈ marked, lowerStr m ∉ e.map Prod.fst) → pruneEntry marked e = .ok e := by
  intro marked
  induction marked with
  | nil => intro e _; rfl
  | cons m ms ih =>
    intro e h
    rw [pruneEntry, if_neg (h m (by simp))]
    exact ih e (fun m2 hm2 => h m2 (by simp [hm2]))

lemma dictPop_ok : ∀ {e : Entry} {m : List Char}, m ∈ e.map Prod.fst →
    ∃ e2, dictPop e m = .ok e2 ∧ e2.map Prod.fst = (e.map Prod.fst).erase m := by
  intro e
  induction e with
  | nil => intro m h; simp at h
  | cons kv rest ih =>
    intro m h
    by_cases hk : kv.1 = m
    · refine ⟨rest, ?_, ?_⟩
      · rw [dictPop, if_pos hk]
      · rw [List.map_cons, hk, List.erase_cons_head]
    · have hmem : m ∈ rest.map Prod.fst := by
        rw [List.map_cons] at h
        rcases List.mem_cons.mp h with h1 | h1
        · exact absurd h1.symm hk
        · exact h1
      obtain ⟨e2, hpop, hkeys⟩ := ih hmem
      refine ⟨kv :: e2, ?_, ?_⟩
      · rw [dictPop, if_neg hk, hpop]
      · rw [List.map_cons, List.map_cons, List.erase_cons]
        simp only [hkeys]
        rw [if_neg (by simp [hk])]

lemma pruneEntry_ok (marked : List (List Char)) : ∀ (e : Entry),
    (∀ m ∈ marked, lowerStr m = m) → ((e.map Prod.fst).Nodup) →
    ∃ e2, pruneEntry marked e = .ok e2 ∧
      List.Sublist (e2.map Prod.fst) (e.map Prod.fst) ∧
      ∀ m ∈ marked, m ∉ e2.map Prod.fst := by
  induction marked with
  | nil =>
    intro e _ _
    exact ⟨e, rfl, List.Sublist.refl _, by simp⟩
  | cons m ms ih =>
    intro e hlow hnd
    have hm : lowerStr m = m := hlow m (by simp)
    by_cases hmem : lowerStr m ∈ e.map Prod.fst
    · rw [hm] at hmem
      obtain ⟨e1, hpop, hkeys⟩ := dictPop_ok hmem
      have hsub1 : List.Sublist (e1.map Prod.fst) (e.map Prod.fst) := by
        rw [hkeys]
        exact List.erase_sublist m (e.map Prod.fst)
      have hnd1 : (e1.map Prod.fst).Nodup := hnd.sublist hsub1
      obtain ⟨e2, hrec, hsub, hnot⟩ :=
        ih e1 (fun m2 hm2 => hlow m2 (by simp [hm2])) hnd1
      refine ⟨e2, ?_, hsub.trans hsub1, ?_⟩
      · rw [pruneEntry, hm, if_pos hmem, hpop]
        exact hrec
      · intro m2 hm2
        rcases List.mem_cons.mp hm2 with rfl | h2
        · intro hin
          have : m2 ∈ e1.map Prod.fst := hsub.subset hin
          rw [hkeys] at this
          exact (hnd.not_mem_erase) this
        · exact hnot m2 h2
    · obtain ⟨e2, hrec, hsub, hnot⟩ :=
        ih e (fun m2 hm2 => hlow m2 (by simp [hm2])) hnd
      refine ⟨e2, ?_, hsub, ?_⟩
      · rw [pruneEntry, if_neg hmem]
        exact hrec
      · intro m2 hm2
        rcases List.mem_cons.mp hm2 with rfl | h2
        · intro hin
          apply hmem
          rw [hm]
          exact hsub.subset hin
        · exact hnot m2 h2

/-- C9: pruning a record that lacks every configured field name
(case-insensitively) is a no-op that raises no error, and applying the
pruner twice to any record store (records being dicts, their key lists
have no duplicates) gives the same result as applying it once. -/
theorem remove_extraneous_noop_and_idempotent :
    (∀ (marked : List (List Char)) (e : Entry),
        (∀ m ∈ marked, ∀ k ∈ e.map Prod.fst, lowerStr k ≠ lowerStr m) →
        pruneEntry marked e = .ok e) ∧
    (∀ store : List Entry, (∀ e ∈ store, (e.map Prod.fst).Nodup) →
        (remove_extraneous marked_for_removal store).bind
            (remove_extraneous marked_for_removal) =
          remove_extraneous marked_for_removal store) := by
  constructor
  · intro marked e h
    apply pruneEntry_skip_all
    intro m hm hmem
    exact h m hm (lowerStr m) hmem (lowerStr_idem m)
  · intro store
    induction store with
    | nil => intro _; rfl
    | cons e es ih =>
      intro hnd
      have hmlow : ∀ m ∈ marked_for_removal, lowerStr m = m := by decide
      obtain ⟨e2, hp, hsub, hnot⟩ :=
        pruneEntry_ok marked_for_removal e hmlow (hnd e (by simp))
      have hp2 : pruneEntry marked_for_removal e2 = .ok e2 := by
        apply pruneEntry_skip_all
        intro m hm hmem
        rw [hmlow m hm] at hmem
        exact hnot m hm hmem
      have ihes := ih (fun e2 he2 => hnd e2 (by simp [he2]))
      rw [remove_extraneous, hp]
      cases hres : remove_extraneous marked_for_removal es with
      | error u =>
        simp [Except.bind]
      | ok es2 =>
        have hes2 : remove_extraneous marked_for_removal es2 = .ok es2 := by
          rw [hres] at ihes
          simpa [Except.bind] using ihes
        simp only [Except.bind]
        rw [remove_extraneous, hp2, hes2]

theorem remove_extraneous_noop_and_idempotent_witness :
    pruneEntry [strL "pmid"] [(strL "ID", strL "r1"), (strL "title", strL "t")] =
      .ok [(strL "ID", strL "r1"), (strL "title", strL "t")] ∧
    (remove_extraneous marked_for_removal
        [[(strL "ID", strL "r1"), (strL "pmid", strL "12345"),
          (strL "title", strL "t")]]).bind
      (remove_extraneous marked_for_removal) =
      remove_extraneous marked_for_removal
        [[(strL "ID", strL "r1"), (strL "pmid", strL "12345"),
          (strL "title", strL "t")]] :=
  ⟨remove_extraneous_noop_and_idempotent.1 [strL "pmid"]
      [(strL "ID", strL "r1"), (strL "title", strL "t")] (by decide),
    remove_extraneous_noop_and_idempotent.2
      [[(strL "ID", strL "r1"), (strL "pmid", strL "12345"),
        (strL "title", strL "t")]] (by decide)⟩
